import Mathlib

/-!
Verification of the trilium-api core: the search-query string builder
(`buildSearchQuery`) and the declarative note mapper (`TriliumMapper`),
shallowly embedded from the TypeScript source (`src/mapper.ts`,
`src/index.ts`).  JavaScript `undefined` is modelled as `Option.none`,
thrown exceptions as `Except.error` carrying the message string, and plain
JavaScript objects as association lists in insertion order (JS object
literals have unique keys, so first-match lookup coincides with property
access).
-/

set_option maxHeartbeats 1000000

/-- JS substring test, `s.includes(pat)` over the character list. -/
def charsContain (pat : List Char) : List Char → Bool
  | [] => pat.isPrefixOf []
  | c :: t => pat.isPrefixOf (c :: t) || charsContain pat t

/-- `s.includes(pat)` from the source (`query.includes(' OR ')` etc.). -/
def strContains (s pat : String) : Bool :=
  charsContain pat.data s.data

/-- `key.startsWith(p)` from the source, on character lists. -/
def strStartsWith (s p : String) : Bool :=
  p.data.isPrefixOf s.data

/-- `key.slice(1)` from the source: drop the first character. -/
def strDrop1 (s : String) : String :=
  String.mk (s.data.drop 1)

/-- `path.slice(5)` from the source: drop the first five characters. -/
def strDrop5 (s : String) : String :=
  String.mk (s.data.drop 5)

/-- Primitive search values: JS string, number and boolean leaves. -/
inductive Prim where
  | str (s : String)
  | num (n : Int)
  | bool (b : Bool)
deriving DecidableEq

/-- A leaf value of the condition tree: `undefined`, `null`, a primitive,
or a `{value, operator}` pair (`ConditionValue` in the source; an absent
or empty operator is `none` / `some ""`). -/
inductive SearchValue where
  | undef
  | null
  | prim (p : Prim)
  | cond (value : Prim) (operator : Option String)
deriving DecidableEq

/-- `value.operator || '='` from the source: a missing (or falsy, i.e.
empty) operator string falls back to the default. -/
def opOr (op : Option String) (d : String) : String :=
  match op with
  | none => d
  | some o => if o = "" then d else o

/-- The rendering `typeof value.value === 'string' ? `'${v}'` : v` used
for the right-hand side of an explicit-operator condition. -/
def renderCondVal : Prim → String
  | .str s => "'" ++ s ++ "'"
  | .num n => toString n
  | .bool b => if b then "true" else "false"

/-- JS template interpolation `${value}` of a primitive. -/
def renderRawPrim : Prim → String
  | .str s => s
  | .num n => toString n
  | .bool b => if b then "true" else "false"

/-- A condition-tree node (`TriliumSearchHelpers` in the source): a
logical combinator (`AND` array, `OR` array, `NOT` with either an object
payload, `snot`, or a bare value payload, `snotBare`) or a flat leaf map
in insertion order. -/
inductive SNode where
  | and (children : List SNode)
  | or (children : List SNode)
  | snot (child : SNode)
  | snotBare (v : SearchValue)
  | leaf (entries : List (String × SearchValue))

/-- Whether the JS object denoted by a node has a top-level `value`
property (the `'value' in notValue` test of the `NOT` branch): a
combinator object has only its combinator key, a leaf map has `value`
exactly when one of its entries is keyed `"value"`. -/
def hasValueKey : SNode → Bool
  | .leaf entries => entries.any (fun e => e.1 == "value")
  | _ => false

/-- One leaf-map entry of `buildSearchQuery`'s final loop: the list of
`parts.push(...)` calls made for a non-`undefined`/`null` entry (empty for
a simple relation whose value is a bare number or boolean, which the
source pushes nothing for). -/
def renderEntry (key : String) (v : SearchValue) : List String :=
  if strStartsWith key "#" then
    let labelName := strDrop1 key
    if strContains labelName "." then
      match v with
      | .cond value op => [key ++ " " ++ opOr op "=" ++ " " ++ renderCondVal value]
      | .prim (.str s) => [key ++ " = '" ++ s ++ "'"]
      | .prim p => [key ++ " = " ++ renderRawPrim p]
      | _ => []
    else
      match v with
      | .prim (.bool true) => ["#" ++ labelName]
      | .prim (.bool false) => ["#!" ++ labelName]
      | .cond value op => ["#" ++ labelName ++ " " ++ opOr op "=" ++ " " ++ renderCondVal value]
      | .prim (.str s) => ["#" ++ labelName ++ " = '" ++ s ++ "'"]
      | .prim p => ["#" ++ labelName ++ " = " ++ renderRawPrim p]
      | _ => []
  else if strStartsWith key "~" then
    let relationName := strDrop1 key
    if strContains relationName "." then
      match v with
      | .cond value op => [key ++ " " ++ opOr op "=" ++ " " ++ renderCondVal value]
      | .prim (.str s) => [key ++ " = '" ++ s ++ "'"]
      | .prim p => [key ++ " = " ++ renderRawPrim p]
      | _ => []
    else
      match v with
      | .cond value op => [key ++ " " ++ opOr op "*=*" ++ " " ++ renderCondVal value]
      | .prim (.str s) => [key ++ " *=* '" ++ s ++ "'"]
      | _ => []
  else
    let path := if strStartsWith key "note." then key else "note." ++ key
    match v with
    | .cond value op => [path ++ " " ++ opOr op "=" ++ " " ++ renderCondVal value]
    | .prim (.str s) => [path ++ " = '" ++ s ++ "'"]
    | .prim (.bool b) => [path ++ " = " ++ (if b then "true" else "false")]
    | .prim (.num n) => [path ++ " = " ++ toString n]
    | _ => []

/-- `undefined`/`null` entries are skipped by `continue` in the source. -/
def isNullish : SearchValue → Bool
  | .undef => true
  | .null => true
  | _ => false

/-- The leaf-map loop of `buildSearchQuery`: iterate entries in insertion
order, skip `undefined`/`null` values, collect the pushed clause strings. -/
def buildLeafParts : List (String × SearchValue) → List String
  | [] => []
  | (key, value) :: rest =>
    if isNullish value then buildLeafParts rest
    else renderEntry key value ++ buildLeafParts rest

/-- The error message of the single `throw` in `buildSearchQuery`. -/
def notErrMsg : String :=
  "NOT operator requires a query object, not a simple value"

mutual

/-- `buildSearchQuery` from the source: `AND`/`OR` recurse over children
and join (parenthesizing children containing `" OR "`, resp. `" AND "` or
`" OR "`), `NOT` recurses on an object payload that has no top-level
`value` property and throws otherwise, and any other node is rendered as
a flat leaf map joined with `" AND "`. -/
def buildSearchQuery : SNode → Except String String
  | .and children =>
    match buildChildren children with
    | .error e => .error e
    | .ok qs =>
      .ok (String.intercalate " AND "
        (qs.map (fun q => if strContains q " OR " then "(" ++ q ++ ")" else q)))
  | .or children =>
    match buildChildren children with
    | .error e => .error e
    | .ok qs =>
      .ok (String.intercalate " OR "
        (qs.map (fun q =>
          if strContains q " AND " || strContains q " OR " then "(" ++ q ++ ")" else q)))
  | .snot child =>
    if hasValueKey child then .error notErrMsg
    else
      match buildSearchQuery child with
      | .error e => .error e
      | .ok q => .ok ("not(" ++ q ++ ")")
  | .snotBare v =>
    match v with
    | .undef => .ok (String.intercalate " AND " (buildLeafParts [("NOT", .undef)]))
    | _ => .error notErrMsg
  | .leaf entries => .ok (String.intercalate " AND " (buildLeafParts entries))

/-- The `children.map((h) => buildSearchQuery(h))` part of the `AND`/`OR`
branches: a thrown error aborts the whole map. -/
def buildChildren : List SNode → Except String (List String)
  | [] => .ok []
  | h :: t =>
    match buildSearchQuery h with
    | .error e => .error e
    | .ok q =>
      match buildChildren t with
      | .error e => .error e
      | .ok qs => .ok (q :: qs)

end

lemma intercalate_single (sep x : String) : String.intercalate sep [x] = x := rfl

lemma buildChildren_eq_mapM : ∀ l : List SNode, buildChildren l = l.mapM buildSearchQuery := by
  intro l
  induction l with
  | nil => rfl
  | cons h t ih =>
    rw [List.mapM_cons]
    simp only [buildChildren, ih]
    cases hb : buildSearchQuery h with
    | error e => rfl
    | ok q =>
      cases hm : t.mapM buildSearchQuery with
      | error e => rfl
      | ok qs => rfl

mutual

theorem buildSearchQuery_error_msg :
    ∀ (n : SNode) (e : String), buildSearchQuery n = .error e → e = notErrMsg
  | .and children, e, h => by
    simp only [buildSearchQuery] at h
    cases hb : buildChildren children with
    | error e2 =>
      rw [hb] at h
      cases h
      exact buildChildren_error_msg children e hb
    | ok qs => rw [hb] at h; cases h
  | .or children, e, h => by
    simp only [buildSearchQuery] at h
    cases hb : buildChildren children with
    | error e2 =>
      rw [hb] at h
      cases h
      exact buildChildren_error_msg children e hb
    | ok qs => rw [hb] at h; cases h
  | .snot child, e, h => by
    simp only [buildSearchQuery] at h
    by_cases hv : hasValueKey child
    · rw [if_pos hv] at h
      cases h
      rfl
    · rw [if_neg hv] at h
      cases hb : buildSearchQuery child with
      | error e2 =>
        rw [hb] at h
        cases h
        exact buildSearchQuery_error_msg child e hb
      | ok q => rw [hb] at h; cases h
  | .snotBare v, e, h => by
    cases v with
    | undef => simp only [buildSearchQuery] at h; exact Except.noConfusion h
    | null => simp only [buildSearchQuery] at h; cases h; rfl
    | prim p => simp only [buildSearchQuery] at h; cases h; rfl
    | cond value op => simp only [buildSearchQuery] at h; cases h; rfl
  | .leaf entries, e, h => by
    simp only [buildSearchQuery] at h
    exact Except.noConfusion h

theorem buildChildren_error_msg :
    ∀ (l : List SNode) (e : String), buildChildren l = .error e → e = notErrMsg
  | [], e, h => by simp only [buildChildren] at h; exact Except.noConfusion h
  | x :: t, e, h => by
    simp only [buildChildren] at h
    cases hb : buildSearchQuery x with
    | error e2 =>
      rw [hb] at h
      cases h
      exact buildSearchQuery_error_msg x e hb
    | ok q =>
      rw [hb] at h
      cases hc : buildChildren t with
      | error e2 =>
        rw [hc] at h
        cases h
        exact buildChildren_error_msg t e hc
      | ok qs => rw [hc] at h; cases h

end

/-- A bare (non-`{value, operator}`) number or boolean: the one leaf-value
shape for which the simple-relation branch of the source pushes no clause. -/
def isBareNonString : SearchValue → Bool
  | .prim (.num _) => true
  | .prim (.bool _) => true
  | _ => false

lemma buildLeafParts_all_nullish :
    ∀ entries : List (String × SearchValue),
      (∀ e ∈ entries, isNullish e.2 = true) → buildLeafParts entries = [] := by
  intro entries h
  induction entries with
  | nil => rfl
  | cons e rest ih =>
    have he : isNullish e.2 = true := h e (by simp)
    obtain ⟨k, v⟩ := e
    simp only [buildLeafParts, he, if_true]
    exact ih (fun x hx => h x (by simp [hx]))

/-- C3: a `NOT` whose payload is an object without a top-level `value`
property is built recursively and wrapped as `not(...)`; a `NOT` whose
payload is a bare `{value, operator}` leaf throws exactly
`"NOT operator requires a query object, not a simple value"`; and that
message is the only error the query builder ever produces. -/
theorem claim_C3_not_handling :
    (∀ (child : SNode) (q : String), hasValueKey child = false →
        buildSearchQuery child = .ok q →
        buildSearchQuery (.snot child) = .ok ("not(" ++ q ++ ")"))
    ∧ (∀ (value : Prim) (op : Option String),
        buildSearchQuery (.snotBare (.cond value op)) =
          .error "NOT operator requires a query object, not a simple value")
    ∧ (∀ (n : SNode) (e : String), buildSearchQuery n = .error e →
        e = "NOT operator requires a query object, not a simple value") := by
  refine ⟨?_, ?_, ?_⟩
  · intro child q hv hq
    simp only [buildSearchQuery, hv, Bool.false_eq_true, if_false, hq]
  · intro value op
    rfl
  · intro n e h
    exact buildSearchQuery_error_msg n e h

/-- Witness for C3 at concrete inputs. -/
theorem claim_C3_not_handling_witness :
    buildSearchQuery (.snot (.leaf [("#draft", .prim (.bool true))])) = .ok "not(#draft)"
    ∧ buildSearchQuery (.snotBare (.cond (.str "x") none)) =
        .error "NOT operator requires a query object, not a simple value" := by
  constructor
  · exact claim_C3_not_handling.1 (.leaf [("#draft", .prim (.bool true))]) "#draft"
      (by decide) (by rfl)
  · exact claim_C3_not_handling.2.1 (.str "x") none

/-- C5: an `AND` node joins the recursively built children with `" AND "`,
parenthesizing exactly the children whose rendering contains `" OR "`; an
`OR` node joins with `" OR "`, parenthesizing exactly the children whose
rendering contains `" AND "` or `" OR "`. -/
theorem claim_C5_and_or_parenthesization :
    ∀ (children : List SNode) (qs : List String),
      children.mapM buildSearchQuery = .ok qs →
      buildSearchQuery (.and children) =
        .ok (String.intercalate " AND "
          (qs.map (fun q => if strContains q " OR " then "(" ++ q ++ ")" else q)))
      ∧ buildSearchQuery (.or children) =
        .ok (String.intercalate " OR "
          (qs.map (fun q =>
            if strContains q " AND " || strContains q " OR "
            then "(" ++ q ++ ")" else q))) := by
  intro children qs h
  constructor
  · simp only [buildSearchQuery, buildChildren_eq_mapM, h]
  · simp only [buildSearchQuery, buildChildren_eq_mapM, h]

/-- Witness for C5 at concrete inputs. -/
theorem claim_C5_and_or_parenthesization_witness :
    buildSearchQuery (.and [.leaf [("#a", .prim (.bool true))],
        .or [.leaf [("#b", .prim (.bool true))], .leaf [("#c", .prim (.bool true))]]]) =
      .ok "#a AND (#b OR #c)"
    ∧ buildSearchQuery (.or [.leaf [("#a", .prim (.bool true))],
        .or [.leaf [("#b", .prim (.bool true))], .leaf [("#c", .prim (.bool true))]]]) =
      .ok "#a OR (#b OR #c)" := by
  have h := claim_C5_and_or_parenthesization
    [.leaf [("#a", .prim (.bool true))],
      .or [.leaf [("#b", .prim (.bool true))], .leaf [("#c", .prim (.bool true))]]]
    ["#a", "#b OR #c"] (by rfl)
  exact ⟨h.1, h.2⟩

/-- C2 counterexample: a dotted relation key with a plain string value and
no operator renders with `=`, not with the claimed default `*=*`. -/
theorem claim_C2_counterexample :
    buildSearchQuery (.leaf [("~author.title", .prim (.str "John"))]) =
      .ok "~author.title = 'John'"
    ∧ ("~author.title = 'John'" : String) ≠ "~author.title *=* 'John'" := by
  exact ⟨rfl, by decide⟩

/-- C2 amended: for a simple (undotted) relation key the missing operator
defaults to `*=*`, both for a plain string value and for a
`{value, operator}` pair without operator; for a dotted relation key the
dotted key is used verbatim as the left-hand side but the missing operator
defaults to `=`. -/
theorem claim_C2_amended_relation_default :
    (∀ (key s : String),
        strStartsWith key "#" = false → strStartsWith key "~" = true →
        strContains (strDrop1 key) "." = false →
        buildSearchQuery (.leaf [(key, .prim (.str s))]) =
          .ok (key ++ " *=* '" ++ s ++ "'"))
    ∧ (∀ (key : String) (v : Prim),
        strStartsWith key "#" = false → strStartsWith key "~" = true →
        strContains (strDrop1 key) "." = false →
        buildSearchQuery (.leaf [(key, .cond v none)]) =
          .ok (key ++ " " ++ "*=*" ++ " " ++ renderCondVal v))
    ∧ (∀ (key s : String),
        strStartsWith key "#" = false → strStartsWith key "~" = true →
        strContains (strDrop1 key) "." = true →
        buildSearchQuery (.leaf [(key, .prim (.str s))]) =
          .ok (key ++ " = '" ++ s ++ "'"))
    ∧ (∀ (key : String) (v : Prim),
        strStartsWith key "#" = false → strStartsWith key "~" = true →
        strContains (strDrop1 key) "." = true →
        buildSearchQuery (.leaf [(key, .cond v none)]) =
          .ok (key ++ " " ++ "=" ++ " " ++ renderCondVal v)) := by
  refine ⟨?_, ?_, ?_, ?_⟩ <;>
    intro key x h1 h2 h3 <;>
    simp only [buildSearchQuery, buildLeafParts, isNullish, renderEntry, h1, h2, h3,
      Bool.false_eq_true, if_false, if_true, List.append_nil, opOr,
      intercalate_single]

/-- Witness for the amended C2 at concrete inputs. -/
theorem claim_C2_amended_relation_default_witness :
    buildSearchQuery (.leaf [("~author", .prim (.str "John"))]) =
      .ok ("~author" ++ " *=* '" ++ "John" ++ "'")
    ∧ buildSearchQuery (.leaf [("~author.title", .prim (.str "Jo"))]) =
      .ok ("~author.title" ++ " = '" ++ "Jo" ++ "'") := by
  exact ⟨claim_C2_amended_relation_default.1 "~author" "John"
      (by decide) (by decide) (by decide),
    claim_C2_amended_relation_default.2.2.1 "~author.title" "Jo"
      (by decide) (by decide) (by decide)⟩

/-- C6 counterexample: the leaf map with the single (non-`undefined`,
non-`null`) entry `{"~x": 5}` renders zero clauses, not the one clause per
remaining entry the claim requires, so the whole map builds to `""`. -/
theorem claim_C6_counterexample :
    (buildLeafParts [("~x", .prim (.num 5))]).length = 0
    ∧ (0 : Nat) ≠ 1
    ∧ buildSearchQuery (.leaf [("~x", .prim (.num 5))]) = .ok "" := by
  exact ⟨rfl, by decide, rfl⟩

/-- C6 amended: a flat leaf map is rendered by iterating its entries in
insertion order, silently skipping entries whose value is `undefined` or
`null`, rendering at most one clause per remaining entry — exactly one
unless the key is a simple (undotted) relation key whose value is a bare
number or boolean, in which case no clause is rendered — and joining all
clauses with `" AND "`; an empty leaf map, or one whose entries are all
`undefined`/`null`, builds to the empty string. -/
theorem claim_C6_amended_leaf_map :
    (∀ entries : List (String × SearchValue),
        buildSearchQuery (.leaf entries) =
          .ok (String.intercalate " AND " (buildLeafParts entries)))
    ∧ (∀ (key : String) (rest : List (String × SearchValue)),
        buildLeafParts ((key, .undef) :: rest) = buildLeafParts rest)
    ∧ (∀ (key : String) (rest : List (String × SearchValue)),
        buildLeafParts ((key, .null) :: rest) = buildLeafParts rest)
    ∧ (∀ (key : String) (v : SearchValue) (rest : List (String × SearchValue)),
        isNullish v = false →
        buildLeafParts ((key, v) :: rest) = renderEntry key v ++ buildLeafParts rest)
    ∧ (∀ (key : String) (v : SearchValue), (renderEntry key v).length ≤ 1)
    ∧ (∀ (key : String) (v : SearchValue), isNullish v = false →
        ((renderEntry key v).length = 1 ↔
          ¬(strStartsWith key "#" = false ∧ strStartsWith key "~" = true ∧
            strContains (strDrop1 key) "." = false ∧ isBareNonString v = true)))
    ∧ buildSearchQuery (.leaf []) = .ok ""
    ∧ (∀ entries : List (String × SearchValue),
        (∀ e ∈ entries, isNullish e.2 = true) →
        buildSearchQuery (.leaf entries) = .ok "") := by
  refine ⟨?_, ?_, ?_, ?_, ?_, ?_, ?_, ?_⟩
  · intro entries; rfl
  · intro key rest; rfl
  · intro key rest; rfl
  · intro key v rest hv
    simp only [buildLeafParts, hv, Bool.false_eq_true, if_false]
  · intro key v
    rcases v with _ | _ | (s | n | b) | ⟨val, op⟩ <;>
      simp only [renderEntry] <;>
      (try cases b) <;>
      split <;> (try split) <;> (try split) <;>
      simp
  · intro key v hv
    simp only [renderEntry, isBareNonString]
    rcases h1 : strStartsWith key "#" with _ | _ <;>
      rcases h2 : strStartsWith key "~" with _ | _ <;>
        rcases h3 : strContains (strDrop1 key) "." with _ | _ <;>
          rcases v with _ | _ | (s | n | b) | ⟨val, op⟩ <;>
            simp_all [isNullish] <;> try (cases b <;> simp_all)
  · rfl
  · intro entries h
    simp only [buildSearchQuery, buildLeafParts_all_nullish entries h]
    rfl

/-- Witness for the amended C6 at concrete inputs. -/
theorem claim_C6_amended_leaf_map_witness :
    buildLeafParts [("#a", SearchValue.prim (.bool true)), ("#b", SearchValue.undef)] =
      renderEntry "#a" (SearchValue.prim (.bool true)) ++ buildLeafParts [("#b", SearchValue.undef)]
    ∧ buildSearchQuery (.leaf [("#a", .undef), ("#b", .null)]) = .ok "" := by
  exact ⟨claim_C6_amended_leaf_map.2.2.2.1 "#a" (SearchValue.prim (.bool true))
      [("#b", SearchValue.undef)] (by decide),
    claim_C6_amended_leaf_map.2.2.2.2.2.2.2 [("#a", .undef), ("#b", .null)] (by decide)⟩

/-- Dynamic JS values flowing through the mapper (attribute values are
strings; dotted note-property paths may reach nested objects).  JS
`undefined` is `Option.none` around this type; JS `null` is `nullV`. -/
inductive MVal where
  | str (s : String)
  | num (n : Int)
  | boolV (b : Bool)
  | nullV
  | obj (fields : List (String × MVal))

/-- A note attribute: discriminant (`label` or `relation`), name, value. -/
structure TriliumAttribute where
  type : String
  name : String
  value : String

/-- A note record: id, title, optional attribute list, plus further own
properties reachable by dotted `note.` paths (the attribute list itself is
not addressable through a dotted path in this model). -/
structure TriliumNote where
  noteId : String
  title : String
  attributes : Option (List TriliumAttribute)
  extra : List (String × MVal)

/-- JS `String.prototype.split(sep)` over the character list
(`''.split('.') === ['']`). -/
def splitChars (sep : Char) : List Char → List (List Char)
  | [] => [[]]
  | c :: t =>
    match splitChars sep t with
    | [] => [[c]]
    | h :: r => if c = sep then [] :: h :: r else (c :: h) :: r

/-- JS optional-chained property access `obj?.[key]` for one step. -/
def dynGet (v : MVal) (k : String) : Option MVal :=
  match v with
  | .obj fields => (fields.find? (fun e => e.1 == k)).map (fun e => e.2)
  | _ => none

/-- The note viewed as a JS object for the dotted-path reduce. -/
def noteAsObj (note : TriliumNote) : MVal :=
  .obj ([("noteId", .str note.noteId), ("title", .str note.title)] ++ note.extra)

/-- The `reduce((obj, key) => obj?.[key], note)` walk: once the current
value is `undefined` (or a non-object), every later step stays `undefined`. -/
def walkProps : Option MVal → List String → Option MVal
  | cur, [] => cur
  | none, _ :: _ => none
  | some v, k :: rest => walkProps (dynGet v k) rest

/-- `TriliumMapper.extractValue` from the source: `#name` finds the first
`label` attribute named `name`, `~name` the first `relation` attribute,
`note.<path>` walks the dotted path through the note's own properties,
anything else (and the empty path) yields `undefined`. -/
def extractValue (note : TriliumNote) (path : String) : Option MVal :=
  if path = "" then none
  else if strStartsWith path "#" then
    match note.attributes with
    | none => none
    | some attrs =>
      (attrs.find? (fun attr => attr.type == "label" && attr.name == strDrop1 path)).map
        (fun attr => MVal.str attr.value)
  else if strStartsWith path "~" then
    match note.attributes with
    | none => none
    | some attrs =>
      (attrs.find? (fun attr => attr.type == "relation" && attr.name == strDrop1 path)).map
        (fun attr => MVal.str attr.value)
  else if strStartsWith path "note." then
    walkProps (some (noteAsObj note))
      ((splitChars '.' (strDrop5 path).data).map (fun cs => String.mk cs))
  else none

/-- A `transform` function; it may throw (`Except.error` is a JS throw). -/
def TransformFn : Type :=
  Option MVal → TriliumNote → Except String (Option MVal)

/-- A `from` extractor function. -/
def ExtractorFn : Type :=
  TriliumNote → Except String (Option MVal)

/-- A `computed` function: receives the partially built result as a
read-only view (key lookup; absent and stored-`undefined` keys both read
as `undefined`) and the original note. -/
def ComputedFn : Type :=
  (String → Option MVal) → TriliumNote → Except String (Option MVal)

/-- The `from` field: a string source path or an extractor function. -/
inductive FromSource where
  | path (p : String)
  | fn (f : ExtractorFn)

/-- A full (non-computed) field descriptor `{from, transform?, default?,
required?}`. -/
structure DirectMapping where
  fromSrc : FromSource
  transform : Option TransformFn
  default : Option MVal
  required : Bool

/-- `FieldMapping` from the source: a shorthand source-path string, a full
descriptor, or a computed descriptor `{computed, default?}`. -/
inductive FieldMapping where
  | shorthand (path : String)
  | direct (m : DirectMapping)
  | computed (f : ComputedFn) (default : Option MVal)

/-- The `if (!fieldMapping) continue` test: the only falsy `FieldMapping`
value is the empty shorthand string. -/
def isFalsyMapping : FieldMapping → Bool
  | .shorthand p => p == ""
  | _ => false

/-- `typeof fieldMapping === 'string' ? { from: fieldMapping } :
fieldMapping` (the computed case never reaches this normalization in the
source; it is given an inert value here). -/
def normalizeMapping : FieldMapping → DirectMapping
  | .shorthand p => ⟨.path p, none, none, false⟩
  | .direct m => m
  | .computed _ _ => ⟨.path "", none, none, false⟩

/-- An entry of the `computedFields` list collected during pass 1. -/
structure CompEntry where
  key : String
  f : ComputedFn
  default : Option MVal

/-- JS property assignment `result[key] = value` on an association list:
overwrite in place if the key exists, else append. -/
def setEntry {α : Type} : List (String × α) → String → α → List (String × α)
  | [], k, v => [(k, v)]
  | (k2, v2) :: t, k, v =>
    if k2 = k then (k, v) :: t else (k2, v2) :: setEntry t k v

/-- JS property read on an association list (`undefined` when absent). -/
def lookupEntry {α : Type} : List (String × α) → String → Option α
  | [], _ => none
  | (k2, v) :: t, k => if k2 = k then some v else lookupEntry t k

/-- Reading the partially built result object: an absent key and a key
stored with value `undefined` both read as `undefined`. -/
def getKey (r : List (String × Option MVal)) (k : String) : Option MVal :=
  match lookupEntry r k with
  | some v => v
  | none => none

/-- The required-field error message thrown by `mapSingle`. -/
def requiredMsg (key : String) (note : TriliumNote) : String :=
  "Required field '" ++ key ++ "' missing from note " ++ note.noteId ++
    " (" ++ note.title ++ ")"

/-- The per-field value resolution of pass 1: extract (function or path),
apply the optional transform, then substitute the default when the value
is still `undefined` and a default is configured. -/
def resolveValue (note : TriliumNote) (m : DirectMapping) : Except String (Option MVal) :=
  match (match m.fromSrc with
         | .fn f => f note
         | .path p => .ok (extractValue note p)) with
  | .error e => .error e
  | .ok value0 =>
    match (match m.transform with
           | some tf => tf value0 note
           | none => .ok value0) with
    | .error e => .error e
    | .ok value1 =>
      .ok (if value1.isNone && m.default.isSome then m.default else value1)

/-- Pass 1 of `TriliumMapper.mapSingle`: walk the configuration entries in
declared order, skip falsy mappings, defer computed fields to the
`computedFields` list, resolve every other field and store it in the
result; throw when a required field resolves to `undefined`. -/
def passOne (note : TriliumNote) :
    List (String × FieldMapping) → List (String × Option MVal) → List CompEntry →
    Except String (List (String × Option MVal) × List CompEntry)
  | [], result, comps => .ok (result, comps)
  | (key, fm) :: rest, result, comps =>
    if isFalsyMapping fm then passOne note rest result comps
    else
      match fm with
      | .computed f d => passOne note rest result (comps ++ [⟨key, f, d⟩])
      | _ =>
        match resolveValue note (normalizeMapping fm) with
        | .error e => .error e
        | .ok value =>
          if (normalizeMapping fm).required && value.isNone then
            .error (requiredMsg key note)
          else
            passOne note rest (setEntry result key value) comps

/-- Pass 2 of `TriliumMapper.mapSingle`: invoke each computed field in
declared order with the current accumulated result (mutated in place by
the source loop, so later computed fields observe earlier ones) and the
note, substituting the default when the computed value is `undefined`. -/
def passTwo (note : TriliumNote) :
    List CompEntry → List (String × Option MVal) →
    Except String (List (String × Option MVal))
  | [], result => .ok result
  | c :: rest, result =>
    match c.f (fun k => getKey result k) note with
    | .error e => .error e
    | .ok value =>
      passTwo note rest
        (setEntry result c.key (if value.isNone && c.default.isSome then c.default else value))

/-- `TriliumMapper.mapSingle`: two passes over the configuration. -/
def mapSingle (config : List (String × FieldMapping)) (note : TriliumNote) :
    Except String (List (String × Option MVal)) :=
  match passOne note config [] [] with
  | .error e => .error e
  | .ok (result, comps) => passTwo note comps result

/-- The array overload of `TriliumMapper.map`:
`notes.map((note) => this.mapSingle(note))`; a thrown error propagates. -/
def mapNotes (config : List (String × FieldMapping)) :
    List TriliumNote → Except String (List (List (String × Option MVal)))
  | [] => .ok []
  | n :: rest =>
    match mapSingle config n with
    | .error e => .error e
    | .ok r =>
      match mapNotes config rest with
      | .error e => .error e
      | .ok rs => .ok (r :: rs)

/-- `Object.assign(base, src)` on association-list objects. -/
def objAssign {α : Type} (base src : List (String × α)) : List (String × α) :=
  src.foldl (fun acc e => setEntry acc e.1 e.2) base

/-- `TriliumMapper.merge(...configs) = Object.assign({}, ...configs)`. -/
def mergeConfigs (configs : List (List (String × FieldMapping))) :
    List (String × FieldMapping) :=
  configs.foldl (fun acc c => objAssign acc c) []

/-- A per-note mapping failure collected by `searchAndMap`. -/
structure MappingFailure where
  noteId : String
  noteTitle : String
  reason : String
  note : TriliumNote

/-- The per-note mapping loop of `searchAndMap` (`src/index.ts`), after
the transport call: `const [mapped] = mapper.map([note])` inside
`try`/`catch`, the `undefined` check, and the two failure pushes.  The
transport itself is outside this model. -/
def searchAndMapNotes (config : List (String × FieldMapping)) :
    List TriliumNote → List (List (String × Option MVal)) × List MappingFailure
  | [] => ([], [])
  | note :: rest =>
    match mapNotes config [note] with
    | .ok mappedList =>
      match mappedList.head? with
      | some mapped =>
        let p := searchAndMapNotes config rest
        (mapped :: p.1, p.2)
      | none =>
        let p := searchAndMapNotes config rest
        (p.1, ⟨note.noteId, note.title, "Mapping returned undefined", note⟩ :: p.2)
    | .error err =>
      let p := searchAndMapNotes config rest
      (p.1, ⟨note.noteId, note.title, err, note⟩ :: p.2)

lemma lookupEntry_setEntry {α : Type} :
    ∀ (l : List (String × α)) (k k2 : String) (v : α),
      lookupEntry (setEntry l k v) k2 = if k2 = k then some v else lookupEntry l k2 := by
  intro l k k2 v
  induction l with
  | nil =>
    simp only [setEntry, lookupEntry]
    by_cases h : k2 = k
    · subst h; simp
    · simp [h, Ne.symm h]
  | cons e t ih =>
    obtain ⟨k3, v3⟩ := e
    simp only [setEntry]
    by_cases h3 : k3 = k
    · subst h3
      simp only [if_pos rfl, lookupEntry]
      by_cases h2 : k2 = k3
      · subst h2; simp
      · have h32 : ¬k3 = k2 := fun hh => h2 hh.symm
        simp [h2, h32]
    · simp only [if_neg h3, lookupEntry, ih]
      by_cases h2 : k2 = k
      · subst h2
        have h32 : ¬k3 = k2 := h3
        simp [h32]
      · simp [h2]

lemma getKey_setEntry (r : List (String × Option MVal)) (k k2 : String) (v : Option MVal) :
    getKey (setEntry r k v) k2 = if k2 = k then v else getKey r k2 := by
  simp only [getKey, lookupEntry_setEntry]
  by_cases h : k2 = k <;> simp [h]

lemma lookupEntry_eq_none_of_not_mem {α : Type} :
    ∀ (l : List (String × α)) (k : String), k ∉ l.map Prod.fst → lookupEntry l k = none := by
  intro l k h
  induction l with
  | nil => rfl
  | cons e t ih =>
    simp only [List.map_cons, List.mem_cons] at h
    push_neg at h
    obtain ⟨k1, v1⟩ := e
    simp only [lookupEntry]
    rw [if_neg (fun hh : k1 = k => h.1 hh.symm)]
    exact ih h.2

/-- Whether a field mapping is a computed descriptor. -/
def isComputedFM : FieldMapping → Bool
  | .computed _ _ => true
  | _ => false

/-- The non-computed entries of a configuration, in declared order. -/
def directsOf (cfg : List (String × FieldMapping)) : List (String × FieldMapping) :=
  cfg.filter (fun e => !isComputedFM e.2)

/-- The computed entries of a configuration, in declared order. -/
def computedsOf (cfg : List (String × FieldMapping)) : List (String × FieldMapping) :=
  cfg.filter (fun e => isComputedFM e.2)

/-- The `computedFields` list that pass 1 collects from a configuration. -/
def compEntriesOf (cfg : List (String × FieldMapping)) : List CompEntry :=
  cfg.filterMap (fun e =>
    match e.2 with
    | .computed f d => some ⟨e.1, f, d⟩
    | _ => none)

lemma passOne_append (note : TriliumNote) :
    ∀ (l1 l2 : List (String × FieldMapping)) (r : List (String × Option MVal))
      (c : List CompEntry),
      passOne note (l1 ++ l2) r c =
        match passOne note l1 r c with
        | .error e => .error e
        | .ok (r2, c2) => passOne note l2 r2 c2 := by
  intro l1
  induction l1 with
  | nil => intro l2 r c; simp [passOne]
  | cons e rest ih =>
    intro l2 r c
    obtain ⟨key, fm⟩ := e
    cases hf : isFalsyMapping fm with
    | true =>
      simp only [List.cons_append, passOne, hf, if_true]
      exact ih l2 r c
    | false =>
      cases fm with
      | computed f d =>
        simp only [List.cons_append, passOne, hf, Bool.false_eq_true, if_false]
        exact ih l2 r (c ++ [⟨key, f, d⟩])
      | shorthand p =>
        simp only [List.cons_append, passOne, hf, Bool.false_eq_true, if_false]
        cases hres : resolveValue note (normalizeMapping (.shorthand p)) with
        | error e2 => rfl
        | ok value =>
          cases hreq : ((normalizeMapping (FieldMapping.shorthand p)).required && value.isNone) with
          | true => simp only [hreq, if_true]
          | false =>
            simp only [hreq, Bool.false_eq_true, if_false]
            exact ih l2 (setEntry r key value) c
      | direct m =>
        simp only [List.cons_append, passOne, hf, Bool.false_eq_true, if_false]
        cases hres : resolveValue note (normalizeMapping (.direct m)) with
        | error e2 => rfl
        | ok value =>
          cases hreq : ((normalizeMapping (FieldMapping.direct m)).required && value.isNone) with
          | true => simp only [hreq, if_true]
          | false =>
            simp only [hreq, Bool.false_eq_true, if_false]
            exact ih l2 (setEntry r key value) c

lemma passOne_comps_acc (note : TriliumNote) :
    ∀ (cfg : List (String × FieldMapping)) (r : List (String × Option MVal))
      (c : List CompEntry),
      passOne note cfg r c =
        match passOne note cfg r [] with
        | .error e => .error e
        | .ok (r2, c2) => .ok (r2, c ++ c2) := by
  intro cfg
  induction cfg with
  | nil => intro r c; simp [passOne]
  | cons e rest ih =>
    intro r c
    obtain ⟨key, fm⟩ := e
    cases hf : isFalsyMapping fm with
    | true =>
      simp only [passOne, hf, if_true]
      exact ih r c
    | false =>
      cases fm with
      | computed f d =>
        simp only [passOne, hf, Bool.false_eq_true, if_false]
        rw [ih r (c ++ [CompEntry.mk key f d]), ih r ([] ++ [CompEntry.mk key f d])]
        cases passOne note rest r [] with
        | error e2 => rfl
        | ok p => simp
      | shorthand p =>
        simp only [passOne, hf, Bool.false_eq_true, if_false]
        cases hres : resolveValue note (normalizeMapping (.shorthand p)) with
        | error e2 => rfl
        | ok value =>
          cases hreq : ((normalizeMapping (FieldMapping.shorthand p)).required && value.isNone) with
          | true => simp only [hreq, if_true]
          | false =>
            simp only [hreq, Bool.false_eq_true, if_false]
            exact ih (setEntry r key value) c
      | direct m =>
        simp only [passOne, hf, Bool.false_eq_true, if_false]
        cases hres : resolveValue note (normalizeMapping (.direct m)) with
        | error e2 => rfl
        | ok value =>
          cases hreq : ((normalizeMapping (FieldMapping.direct m)).required && value.isNone) with
          | true => simp only [hreq, if_true]
          | false =>
            simp only [hreq, Bool.false_eq_true, if_false]
            exact ih (setEntry r key value) c

lemma compEntriesOf_directsOf (cfg : List (String × FieldMapping)) :
    compEntriesOf (directsOf cfg) = [] := by
  induction cfg with
  | nil => rfl
  | cons e rest ih =>
    obtain ⟨key, fm⟩ := e
    cases fm <;> simp_all [compEntriesOf, directsOf, isComputedFM]

lemma compEntriesOf_computedsOf (cfg : List (String × FieldMapping)) :
    compEntriesOf (computedsOf cfg) = compEntriesOf cfg := by
  induction cfg with
  | nil => rfl
  | cons e rest ih =>
    obtain ⟨key, fm⟩ := e
    cases fm <;> simp_all [compEntriesOf, computedsOf, isComputedFM]

lemma passOne_split (note : TriliumNote) :
    ∀ (cfg : List (String × FieldMapping)) (r : List (String × Option MVal)),
      passOne note cfg r [] =
        match passOne note (directsOf cfg) r [] with
        | .error e => .error e
        | .ok (r2, _) => .ok (r2, compEntriesOf cfg) := by
  intro cfg
  induction cfg with
  | nil => intro r; simp [passOne, directsOf, compEntriesOf]
  | cons e rest ih =>
    intro r
    obtain ⟨key, fm⟩ := e
    cases hf : isFalsyMapping fm with
    | true =>
      have hfm : fm = .shorthand "" := by
        cases fm with
        | shorthand p =>
          simp only [isFalsyMapping, beq_iff_eq] at hf
          rw [hf]
        | direct m => simp [isFalsyMapping] at hf
        | computed f d => simp [isFalsyMapping] at hf
      subst hfm
      have hd : directsOf ((key, FieldMapping.shorthand "") :: rest) =
          (key, FieldMapping.shorthand "") :: directsOf rest := by
        simp [directsOf, isComputedFM]
      have hc : compEntriesOf ((key, FieldMapping.shorthand "") :: rest) =
          compEntriesOf rest := by
        simp [compEntriesOf]
      rw [hd, hc]
      simp only [passOne, hf, if_true]
      exact ih r
    | false =>
      cases fm with
      | computed f d =>
        have hd : directsOf ((key, FieldMapping.computed f d) :: rest) = directsOf rest := by
          simp [directsOf, isComputedFM]
        have hc : compEntriesOf ((key, FieldMapping.computed f d) :: rest) =
            ⟨key, f, d⟩ :: compEntriesOf rest := by
          simp [compEntriesOf]
        rw [hd, hc]
        simp only [passOne, hf, Bool.false_eq_true, if_false]
        rw [passOne_comps_acc note rest r, ih r]
        cases passOne note (directsOf rest) r [] with
        | error e2 => rfl
        | ok p => simp
      | shorthand p =>
        have hd : directsOf ((key, FieldMapping.shorthand p) :: rest) =
            (key, FieldMapping.shorthand p) :: directsOf rest := by
          simp [directsOf, isComputedFM]
        have hc : compEntriesOf ((key, FieldMapping.shorthand p) :: rest) =
            compEntriesOf rest := by
          simp [compEntriesOf]
        rw [hd, hc]
        simp only [passOne, hf, Bool.false_eq_true, if_false]
        cases hres : resolveValue note (normalizeMapping (.shorthand p)) with
        | error e2 => rfl
        | ok value =>
          cases hreq : ((normalizeMapping (FieldMapping.shorthand p)).required && value.isNone) with
          | true => simp only [hreq, if_true]
          | false =>
            simp only [hreq, Bool.false_eq_true, if_false]
            exact ih (setEntry r key value)
      | direct m =>
        have hd : directsOf ((key, FieldMapping.direct m) :: rest) =
            (key, FieldMapping.direct m) :: directsOf rest := by
          simp [directsOf, isComputedFM]
        have hc : compEntriesOf ((key, FieldMapping.direct m) :: rest) =
            compEntriesOf rest := by
          simp [compEntriesOf]
        rw [hd, hc]
        simp only [passOne, hf, Bool.false_eq_true, if_false]
        cases hres : resolveValue note (normalizeMapping (.direct m)) with
        | error e2 => rfl
        | ok value =>
          cases hreq : ((normalizeMapping (FieldMapping.direct m)).required && value.isNone) with
          | true => simp only [hreq, if_true]
          | false =>
            simp only [hreq, Bool.false_eq_true, if_false]
            exact ih (setEntry r key value)

lemma passOne_all_computed (note : TriliumNote) :
    ∀ (cfg : List (String × FieldMapping)) (r : List (String × Option MVal))
      (c : List CompEntry),
      (∀ e ∈ cfg, isComputedFM e.2 = true) →
      passOne note cfg r c = .ok (r, c ++ compEntriesOf cfg) := by
  intro cfg
  induction cfg with
  | nil => intro r c _; simp [passOne, compEntriesOf]
  | cons e rest ih =>
    intro r c h
    obtain ⟨key, fm⟩ := e
    have hcomp : isComputedFM fm = true := h (key, fm) (by simp)
    cases fm with
    | shorthand p => simp [isComputedFM] at hcomp
    | direct m => simp [isComputedFM] at hcomp
    | computed f d =>
      have hrest : ∀ e ∈ rest, isComputedFM e.2 = true :=
        fun e he => h e (by simp [he])
      have hc : compEntriesOf ((key, FieldMapping.computed f d) :: rest) =
          ⟨key, f, d⟩ :: compEntriesOf rest := by
        simp [compEntriesOf]
      rw [hc]
      simp only [passOne, isFalsyMapping]
      rw [ih r (c ++ [CompEntry.mk key f d]) hrest]
      simp

lemma passOne_frame (note : TriliumNote) :
    ∀ (cfg : List (String × FieldMapping)) (r : List (String × Option MVal))
      (c : List CompEntry) (k : String),
      (∀ e ∈ cfg, isComputedFM e.2 = true ∨ isFalsyMapping e.2 = true ∨ e.1 ≠ k) →
      ∀ (r2 : List (String × Option MVal)) (c2 : List CompEntry),
        passOne note cfg r c = .ok (r2, c2) → getKey r2 k = getKey r k := by
  intro cfg
  induction cfg with
  | nil =>
    intro r c k _ r2 c2 h2
    simp only [passOne] at h2
    cases h2
    rfl
  | cons e rest ih =>
    intro r c k h r2 c2 h2
    obtain ⟨key, fm⟩ := e
    have hrest : ∀ e ∈ rest, isComputedFM e.2 = true ∨ isFalsyMapping e.2 = true ∨ e.1 ≠ k :=
      fun e he => h e (by simp [he])
    cases hf : isFalsyMapping fm with
    | true =>
      simp only [passOne, hf, if_true] at h2
      exact ih r c k hrest r2 c2 h2
    | false =>
      cases fm with
      | computed f d =>
        simp only [passOne, hf, Bool.false_eq_true, if_false] at h2
        exact ih r (c ++ [⟨key, f, d⟩]) k hrest r2 c2 h2
      | shorthand p =>
        have hk : key ≠ k := by
          rcases h (key, .shorthand p) (by simp) with hcv | hfv | hne
          · simp [isComputedFM] at hcv
          · rw [hfv] at hf; cases hf
          · exact hne
        simp only [passOne, hf, Bool.false_eq_true, if_false] at h2
        cases hres : resolveValue note (normalizeMapping (.shorthand p)) with
        | error e2 => rw [hres] at h2; cases h2
        | ok value =>
          rw [hres] at h2
          dsimp only at h2
          cases hreq : ((normalizeMapping (FieldMapping.shorthand p)).required && value.isNone) with
          | true => rw [hreq] at h2; simp at h2
          | false =>
            rw [hreq] at h2
            simp only [Bool.false_eq_true, if_false] at h2
            have := ih (setEntry r key value) c k hrest r2 c2 h2
            rw [this, getKey_setEntry]
            rw [if_neg (fun hh : k = key => hk hh.symm)]
      | direct m =>
        have hk : key ≠ k := by
          rcases h (key, .direct m) (by simp) with hcv | hfv | hne
          · simp [isComputedFM] at hcv
          · rw [hfv] at hf; cases hf
          · exact hne
        simp only [passOne, hf, Bool.false_eq_true, if_false] at h2
        cases hres : resolveValue note (normalizeMapping (.direct m)) with
        | error e2 => rw [hres] at h2; cases h2
        | ok value =>
          rw [hres] at h2
          dsimp only at h2
          cases hreq : ((normalizeMapping (FieldMapping.direct m)).required && value.isNone) with
          | true => rw [hreq] at h2; simp at h2
          | false =>
            rw [hreq] at h2
            simp only [Bool.false_eq_true, if_false] at h2
            have := ih (setEntry r key value) c k hrest r2 c2 h2
            rw [this, getKey_setEntry]
            rw [if_neg (fun hh : k = key => hk hh.symm)]

lemma passTwo_append (note : TriliumNote) :
    ∀ (xs ys : List CompEntry) (r : List (String × Option MVal)),
      passTwo note (xs ++ ys) r =
        match passTwo note xs r with
        | .error e => .error e
        | .ok r2 => passTwo note ys r2 := by
  intro xs
  induction xs with
  | nil => intro ys r; simp [passTwo]
  | cons cEntry rest ih =>
    intro ys r
    simp only [List.cons_append, passTwo]
    cases hf : cEntry.f (fun k => getKey r k) note with
    | error e => rfl
    | ok value => exact ih ys _

lemma passTwo_frame (note : TriliumNote) :
    ∀ (comps : List CompEntry) (r : List (String × Option MVal)) (k : String),
      (∀ c ∈ comps, c.key ≠ k) →
      ∀ (out : List (String × Option MVal)),
        passTwo note comps r = .ok out → getKey out k = getKey r k := by
  intro comps
  induction comps with
  | nil =>
    intro r k _ out h2
    simp only [passTwo] at h2
    cases h2
    rfl
  | cons cEntry rest ih =>
    intro r k h out h2
    simp only [passTwo] at h2
    cases hf : cEntry.f (fun k2 => getKey r k2) note with
    | error e => rw [hf] at h2; cases h2
    | ok value =>
      rw [hf] at h2
      have hk : cEntry.key ≠ k := h cEntry (by simp)
      have hrest : ∀ c ∈ rest, c.key ≠ k := fun c hc => h c (by simp [hc])
      have := ih _ k hrest out h2
      rw [this, getKey_setEntry, if_neg (fun hh : k = cEntry.key => hk hh.symm)]

lemma directsOf_idem (cfg : List (String × FieldMapping)) :
    directsOf (directsOf cfg) = directsOf cfg := by
  simp [directsOf, List.filter_filter]

lemma directsOf_computedsOf (cfg : List (String × FieldMapping)) :
    directsOf (computedsOf cfg) = [] := by
  induction cfg with
  | nil => rfl
  | cons e rest ih =>
    obtain ⟨key, fm⟩ := e
    cases fm <;> simp_all [directsOf, computedsOf, isComputedFM]

lemma mapSingle_reorder (config : List (String × FieldMapping)) (note : TriliumNote) :
    mapSingle config note = mapSingle (directsOf config ++ computedsOf config) note := by
  simp only [mapSingle]
  rw [passOne_split note config []]
  rw [passOne_append note (directsOf config) (computedsOf config) [] []]
  cases hp : passOne note (directsOf config) [] [] with
  | error e => rfl
  | ok p =>
    obtain ⟨r2, c2⟩ := p
    have hc2 : c2 = [] := by
      have hs := passOne_split note (directsOf config) []
      rw [directsOf_idem, hp, compEntriesOf_directsOf] at hs
      dsimp only at hs
      simp only [Except.ok.injEq, Prod.mk.injEq] at hs
      exact hs.2
    subst hc2
    have hall : ∀ e ∈ computedsOf config, isComputedFM e.2 = true := by
      intro e he
      exact (List.mem_filter.mp he).2
    dsimp only
    rw [passOne_all_computed note (computedsOf config) r2 [] hall]
    simp only [List.nil_append, compEntriesOf_computedsOf]

/-- C1 amended: computed fields are always resolved after all non-computed
fields regardless of declaration order (moving every computed field behind
every direct field leaves the mapping unchanged), and each computed
function is invoked with the accumulated result object, which agrees with
the final pass-1 result on every key not owned by an earlier computed
field; since pass 1 stores only non-computed keys, a computed field
reading a *later* computed field's slot (or any key owned by no direct
field) sees `undefined`.  However, because pass 2 mutates the shared
result in declaration order, a computed field *does* see the outputs of
computed fields declared before it (the original claim's "never" fails,
see the counterexample). -/
theorem claim_C1_amended_two_pass :
    (∀ (config : List (String × FieldMapping)) (note : TriliumNote),
        mapSingle config note = mapSingle (directsOf config ++ computedsOf config) note)
    ∧ (∀ (note : TriliumNote) (c : CompEntry) (rest : List CompEntry)
        (r : List (String × Option MVal)),
        passTwo note (c :: rest) r =
          match c.f (fun k => getKey r k) note with
          | .error e => .error e
          | .ok value =>
            passTwo note rest
              (setEntry r c.key
                (if value.isNone && c.default.isSome then c.default else value)))
    ∧ (∀ (note : TriliumNote) (xs ys : List CompEntry) (r : List (String × Option MVal)),
        passTwo note (xs ++ ys) r =
          match passTwo note xs r with
          | .error e => .error e
          | .ok r2 => passTwo note ys r2)
    ∧ (∀ (note : TriliumNote) (comps : List CompEntry) (r : List (String × Option MVal))
        (k : String), (∀ c ∈ comps, c.key ≠ k) →
        ∀ out, passTwo note comps r = .ok out → getKey out k = getKey r k)
    ∧ (∀ (note : TriliumNote) (config : List (String × FieldMapping)) (k : String),
        (∀ e ∈ config, isComputedFM e.2 = true ∨ e.1 ≠ k) →
        ∀ (r2 : List (String × Option MVal)) (c2 : List CompEntry),
          passOne note config [] [] = .ok (r2, c2) → getKey r2 k = none) := by
  refine ⟨mapSingle_reorder, ?_, passTwo_append, passTwo_frame, ?_⟩
  · intro note c rest r
    simp only [passTwo]
  · intro note config k h r2 c2 h2
    have hh : ∀ e ∈ config,
        isComputedFM e.2 = true ∨ isFalsyMapping e.2 = true ∨ e.1 ≠ k := by
      intro e he
      rcases h e he with h1 | h1
      · exact Or.inl h1
      · exact Or.inr (Or.inr h1)
    rw [passOne_frame note config [] [] k hh r2 c2 h2]
    rfl

/-- The two-computed-field configuration used to exhibit pass-2 ordering:
`a` is computed first and stores `"A"`; `b` is computed second and simply
returns whatever it reads at slot `"a"`. -/
def cfgTwoComputed : List (String × FieldMapping) :=
  [("a", .computed (fun _ _ => .ok (some (.str "A"))) none),
   ("b", .computed (fun view _ => .ok (view "a")) none)]

/-- A plain note used by the mapper witnesses. -/
def noteA : TriliumNote := ⟨"n1", "Note One", some [], []⟩

/-- C1 counterexample: the computed field `b`, declared after the computed
field `a`, reads `a`'s slot and sees `a`'s computed output `"A"`, not
`undefined` as the claim requires. -/
theorem claim_C1_counterexample :
    mapSingle cfgTwoComputed noteA =
      .ok [("a", some (.str "A")), ("b", some (.str "A"))]
    ∧ some (MVal.str "A") ≠ none := by
  exact ⟨rfl, by simp⟩

/-- Witness for the amended C1 at concrete inputs. -/
theorem claim_C1_amended_two_pass_witness :
    getKey [] "b" = none := by
  exact claim_C1_amended_two_pass.2.2.2.2 noteA cfgTwoComputed "b"
    (by
      intro e he
      simp only [cfgTwoComputed, List.mem_cons, List.not_mem_nil, or_false] at he
      rcases he with he | he <;> subst he <;> simp [isComputedFM])
    [] (compEntriesOf cfgTwoComputed) (by rfl)

/-- C4: if a non-computed field is configured with `required` and its
value is still `undefined` after extraction, transform, and default
substitution, `mapSingle` throws with exactly
`"Required field '<field>' missing from note <id> (<title>)"`; the
`Except.error` result carries no partial result object. -/
theorem claim_C4_required_field_error :
    ∀ (note : TriliumNote) (pre : List (String × FieldMapping)) (key : String)
      (m : DirectMapping) (post : List (String × FieldMapping))
      (r : List (String × Option MVal)) (c : List CompEntry),
      passOne note pre [] [] = .ok (r, c) →
      m.required = true →
      resolveValue note m = .ok none →
      mapSingle (pre ++ (key, .direct m) :: post) note =
        .error ("Required field '" ++ key ++ "' missing from note " ++
          note.noteId ++ " (" ++ note.title ++ ")") := by
  intro note pre key m post r c hpre hreq hres
  simp only [mapSingle]
  rw [passOne_append note pre ((key, .direct m) :: post) [] [], hpre]
  dsimp only
  simp only [passOne, isFalsyMapping, Bool.false_eq_true, if_false, normalizeMapping, hres]
  simp only [hreq, Option.isNone_none, Bool.and_self, if_true]
  rfl

/-- A note lacking the `slug` label, used by the C4 witness. -/
def noteNoSlug : TriliumNote := ⟨"test123", "Test Note", some [], []⟩

/-- Witness for C4 at concrete inputs. -/
theorem claim_C4_required_field_error_witness :
    mapSingle [("slug", .direct ⟨.path "#slug", none, none, true⟩)] noteNoSlug =
      .error ("Required field '" ++ "slug" ++ "' missing from note " ++
        "test123" ++ " (" ++ "Test Note" ++ ")") := by
  exact claim_C4_required_field_error noteNoSlug [] "slug"
    ⟨.path "#slug", none, none, true⟩ [] [] [] rfl rfl rfl

lemma mapNotes_singleton (config : List (String × FieldMapping)) (note : TriliumNote) :
    mapNotes config [note] =
      match mapSingle config note with
      | .error e => .error e
      | .ok r => .ok [r] := by
  simp only [mapNotes]

lemma searchAndMapNotes_spec (config : List (String × FieldMapping)) :
    ∀ notes : List TriliumNote,
      (searchAndMapNotes config notes).1 =
        notes.filterMap (fun n =>
          match mapSingle config n with
          | .ok r => some r
          | .error _ => none)
      ∧ (searchAndMapNotes config notes).2 =
        notes.filterMap (fun n =>
          match mapSingle config n with
          | .ok _ => none
          | .error e => some ⟨n.noteId, n.title, e, n⟩) := by
  intro notes
  induction notes with
  | nil => exact ⟨rfl, rfl⟩
  | cons note rest ih =>
    simp only [searchAndMapNotes, mapNotes_singleton, List.filterMap_cons]
    cases hm : mapSingle config note with
    | error e => exact ⟨by simp [ih.1], by simp [ih.2]⟩
    | ok r => exact ⟨by simp [ih.1], by simp [ih.2]⟩

/-- C7: the per-note loop of `searchAndMap` maps each note independently:
a note whose mapping throws becomes a `MappingFailure` carrying the
note's id, title and the thrown message instead of aborting the batch,
and the output separates successes and failures into two lists, each in
the input notes' relative order. -/
theorem claim_C7_per_note_failure_isolation :
    ∀ (config : List (String × FieldMapping)) (notes : List TriliumNote),
      (searchAndMapNotes config notes).1 =
        notes.filterMap (fun n =>
          match mapSingle config n with
          | .ok r => some r
          | .error _ => none)
      ∧ (searchAndMapNotes config notes).2 =
        notes.filterMap (fun n =>
          match mapSingle config n with
          | .ok _ => none
          | .error e => some ⟨n.noteId, n.title, e, n⟩) := by
  intro config notes
  exact searchAndMapNotes_spec config notes

/-- C8: the batch form of `TriliumMapper.map` applies the single-note
mapping element-wise: on success the output has the input's length and
the element at each index is the single-note mapping of the note at that
index — no deduplication, no reordering. -/
theorem claim_C8_batch_elementwise :
    ∀ (config : List (String × FieldMapping)) (notes : List TriliumNote)
      (out : List (List (String × Option MVal))),
      mapNotes config notes = .ok out →
      out.length = notes.length ∧
      ∀ (i : Nat) (hn : i < notes.length) (ho : i < out.length),
        mapSingle config (notes.get ⟨i, hn⟩) = .ok (out.get ⟨i, ho⟩) := by
  intro config notes
  induction notes with
  | nil =>
    intro out h
    simp only [mapNotes] at h
    cases h
    exact ⟨rfl, fun i hn _ => absurd hn (by simp)⟩
  | cons n rest ih =>
    intro out h
    simp only [mapNotes] at h
    cases hm : mapSingle config n with
    | error e => rw [hm] at h; cases h
    | ok r =>
      rw [hm] at h
      cases hr : mapNotes config rest with
      | error e => rw [hr] at h; cases h
      | ok rs =>
        rw [hr] at h
        dsimp only at h
        cases h
        obtain ⟨hlen, helem⟩ := ih rs hr
        refine ⟨by simp [hlen], ?_⟩
        intro i hn ho
        cases i with
        | zero => exact hm
        | succ j =>
          simp only [List.get_cons_succ]
          exact helem j (by simpa using hn) (by simpa using ho)

/-- Witness for C8 at concrete inputs. -/
theorem claim_C8_batch_elementwise_witness :
    ([[("t", some (MVal.str "Note One"))], [("t", some (MVal.str "Note One"))]].length =
      [noteA, noteA].length)
    ∧ mapSingle [("t", FieldMapping.shorthand "note.title")] noteA =
        .ok [("t", some (MVal.str "Note One"))] := by
  have h := claim_C8_batch_elementwise [("t", FieldMapping.shorthand "note.title")]
    [noteA, noteA]
    [[("t", some (MVal.str "Note One"))], [("t", some (MVal.str "Note One"))]] rfl
  exact ⟨h.1, h.2 0 (by decide) (by decide)⟩

lemma lookupEntry_objAssign {α : Type} :
    ∀ (src base : List (String × α)) (k : String),
      (src.map Prod.fst).Nodup →
      lookupEntry (objAssign base src) k =
        match lookupEntry src k with
        | some v => some v
        | none => lookupEntry base k := by
  intro src
  induction src with
  | nil => intro base k _; rfl
  | cons e t ih =>
    intro base k hnd
    obtain ⟨k1, v1⟩ := e
    simp only [List.map_cons, List.nodup_cons] at hnd
    obtain ⟨hk1, hnd2⟩ := hnd
    simp only [objAssign, List.foldl_cons]
    rw [show (t.foldl (fun acc e => setEntry acc e.1 e.2) (setEntry base k1 v1)) =
      objAssign (setEntry base k1 v1) t from rfl]
    rw [ih (setEntry base k1 v1) k hnd2]
    simp only [lookupEntry]
    by_cases hk : k1 = k
    · subst hk
      rw [lookupEntry_eq_none_of_not_mem t k1 hk1, lookupEntry_setEntry]
      simp
    · rw [if_neg hk, lookupEntry_setEntry, if_neg (fun hh : k = k1 => hk hh.symm)]

lemma mergeConfigs_lookup_foldl (k : String) :
    ∀ (configs : List (List (String × FieldMapping)))
      (base : List (String × FieldMapping)),
      (∀ c ∈ configs, (c.map Prod.fst).Nodup) →
      lookupEntry (configs.foldl (fun acc c => objAssign acc c) base) k =
        configs.foldl (fun acc c =>
          match lookupEntry c k with
          | some m => some m
          | none => acc) (lookupEntry base k) := by
  intro configs
  induction configs with
  | nil => intro base _; rfl
  | cons c rest ih =>
    intro base hnd
    simp only [List.foldl_cons]
    rw [ih (objAssign base c) (fun c2 hc2 => hnd c2 (by simp [hc2]))]
    rw [lookupEntry_objAssign c base k (hnd c (by simp))]
    congr 1
    cases lookupEntry c k <;> rfl

/-- C9: `TriliumMapper.merge` is the shallow left-to-right overwrite union
keyed by field name: looking up any key in the merged configuration gives
the whole mapping from the last (rightmost) configuration containing that
key, and `none` only when no configuration contains it. -/
theorem claim_C9_merge_shallow_overwrite :
    ∀ (configs : List (List (String × FieldMapping))) (k : String),
      (∀ c ∈ configs, (c.map Prod.fst).Nodup) →
      lookupEntry (mergeConfigs configs) k =
        configs.foldl (fun acc c =>
          match lookupEntry c k with
          | some m => some m
          | none => acc) none := by
  intro configs k hnd
  simp only [mergeConfigs]
  rw [mergeConfigs_lookup_foldl k configs [] hnd]
  rfl

/-- Witness for C9 at concrete inputs: the key `x` present in both
configurations resolves to the second configuration's mapping. -/
theorem claim_C9_merge_shallow_overwrite_witness :
    lookupEntry (mergeConfigs
      [[("t", FieldMapping.shorthand "note.title"), ("x", FieldMapping.shorthand "#a")],
       [("x", FieldMapping.shorthand "#b")]]) "x" =
      some (FieldMapping.shorthand "#b") := by
  exact (claim_C9_merge_shallow_overwrite
    [[("t", FieldMapping.shorthand "note.title"), ("x", FieldMapping.shorthand "#a")],
     [("x", FieldMapping.shorthand "#b")]] "x" (by decide)).trans rfl

/-- C10: `mapSingle` never succeeds with an undefined result — the batch
form returns one defined result object per note — so every failure
recorded by the search-and-map loop comes from a thrown error (the
`"Mapping returned undefined"` branch is unreachable: each recorded
failure's reason is the error thrown by `mapSingle` on that note). -/
theorem claim_C10_mapping_never_undefined :
    (∀ (config : List (String × FieldMapping)) (note : TriliumNote)
        (out : List (List (String × Option MVal))),
        mapNotes config [note] = .ok out → out ≠ [])
    ∧ (∀ (config : List (String × FieldMapping)) (notes : List TriliumNote)
        (f : MappingFailure), f ∈ (searchAndMapNotes config notes).2 →
        mapSingle config f.note = .error f.reason) := by
  constructor
  · intro config note out h
    rw [mapNotes_singleton] at h
    cases hm : mapSingle config note with
    | error e => rw [hm] at h; cases h
    | ok r =>
      rw [hm] at h
      cases h
      simp
  · intro config notes f hmem
    rw [(searchAndMapNotes_spec config notes).2] at hmem
    obtain ⟨n, hn, heq⟩ := List.mem_filterMap.mp hmem
    cases hm : mapSingle config n with
    | ok r => rw [hm] at heq; simp at heq
    | error e =>
      rw [hm] at heq
      simp only [Option.some.injEq] at heq
      subst heq
      exact hm

/-- Witness for C10 at concrete inputs. -/
theorem claim_C10_mapping_never_undefined_witness :
    ([[]] : List (List (String × Option MVal))) ≠ [] := by
  exact claim_C10_mapping_never_undefined.1 [] noteA [[]] rfl
